import Mathlib

/-!
# Verification of the chunk/merge/progress core of ContractPlaybookBuilder

Shallow embedding of `analyze_contract_chunked` and its merge logic from
`src/utils/playbook_generator.py`.  Contract text is modelled as `List Char`;
JSON-shaped dictionaries coming back from the analysis call are modelled by
typed records carrying exactly the fields the merge logic consults, plus
assoc-list objects (`Summary`, `Strategy`) where the code only tests
truthiness and passes the object through.  The per-chunk analysis call (an
OpenAI API round trip) is modelled as an oracle parameter
`analyze : Nat → List Char → Except ε ChunkResult` indexed by the loop index,
so that each iteration's outcome is an input of the model.  Machine floats
appear in the source only in the progress percentage
`int((idx + 1) / len(chunks) * 80)`; it is modelled by exact natural
division `(idx + 1) * 80 / n`, which agrees with the float computation on the
properties proved here (monotonicity and the 0..80 range are preserved by
rounding either way).
-/

/-- JSON-ish scalar values appearing in the summary/strategy objects the
merge step passes through or constructs. -/
inductive SVal where
  | str : String → SVal
  | num : Nat → SVal
  | strs : List String → SVal
deriving DecidableEq

/-- An `agreement_summary` JSON object, as an association list.  The merge
logic never looks inside it except to test Python truthiness (empty dict is
falsy). -/
abbrev Summary := List (String × SVal)

/-- A `negotiation_strategy` JSON object, same treatment as `Summary`. -/
abbrev Strategy := List (String × SVal)

/-- One clause dictionary from a parsed model response.  Only the three
fields read by the merge step are modelled; `none` models an absent key
(`dict.get` with a default). -/
structure Clause where
  section_reference : Option String
  clause_title : Option String
  risk_level : Option String
deriving DecidableEq

/-- One definition dictionary from a parsed model response. -/
structure Defn where
  term : Option String
  definition : Option String
deriving DecidableEq

/-- The parsed result of one `analyze_contract` call, keeping the four keys
`analyze_contract_chunked` reads; `none` models an absent key. -/
structure ChunkResult where
  clauses : Option (List Clause)
  definitions : Option (List Defn)
  agreement_summary : Option Summary
  negotiation_strategy : Option Strategy
deriving DecidableEq

/-- `quick_reference` object of the combined playbook. -/
structure QuickReference where
  deal_breakers : List String
  high_priority_items : List String
  standard_acceptable_terms : List String
  common_negotiation_points : List String
  recommended_order_of_negotiation : List String
deriving DecidableEq

/-- The combined playbook dictionary built at the end of
`analyze_contract_chunked` (`combined_result` in the source). -/
structure Playbook where
  agreement_summary : Summary
  clauses : List Clause
  definitions : List Defn
  quick_reference : QuickReference
  negotiation_strategy : Strategy
deriving DecidableEq

/-- `chunk_size = 15000` from `analyze_contract_chunked`. -/
def chunk_size : Nat := 15000

/-- The chunking loop
`for i in range(0, len(contract_text), chunk_size): chunks.append(contract_text[i:i + chunk_size])`
expressed as structural recursion: repeatedly take `chunk_size` characters. -/
def chunksOf (l : List Char) : List (List Char) :=
  if h : l = [] then []
  else l.take chunk_size :: chunksOf (l.drop chunk_size)
termination_by l.length
decreasing_by
  simp only [List.length_drop]
  have hl : 0 < l.length := List.length_pos.mpr h
  have : 0 < chunk_size := by decide
  omega

/-- The segments actually analyzed by `analyze_contract_chunked`: for text
shorter than `chunk_size` the chunked path is bypassed and the whole text is
analyzed in a single call, otherwise the text is split by `chunksOf`. -/
def planChunks (text : List Char) : List (List Char) :=
  if text.length < chunk_size then [text] else chunksOf text

/-- `clause.get("clause_title", "")`. -/
def clause_title_of (c : Clause) : String := c.clause_title.getD ""

/-- `clause.get("section_reference", "")`. -/
def section_of (c : Clause) : String := c.section_reference.getD ""

/-- Python `str.lower()` modelled as per-character lowercasing of the
underlying character list (identical to `String.toLower`, but defined by a
structural map so that it reduces inside the kernel). -/
def lowerStr (s : String) : String := String.mk (s.data.map Char.toLower)

/-- `clause.get("risk_level", "").lower()`. -/
def risk_lower (c : Clause) : String := lowerStr (c.risk_level.getD "")

/-- `item = f"{title} (Section {section})" if section else title`
(Python truthiness of the section string: non-empty). -/
def item_of (c : Clause) : String :=
  if section_of c == "" then clause_title_of c
  else clause_title_of c ++ " (Section " ++ section_of c ++ ")"

/-- `risk == "red"`, the deal-breaker test of the bucketing loop. -/
def is_red (c : Clause) : Bool := risk_lower c == "red"

/-- `risk == "yellow"`, the high-priority test of the bucketing loop. -/
def is_yellow (c : Clause) : Bool := risk_lower c == "yellow"

/-- The `else` branch of the bucketing loop: neither red nor yellow. -/
def is_other_risk (c : Clause) : Bool := !is_red c && !is_yellow c

/-- `c.get("risk_level", "").lower() in ["red", "yellow"]`, the filter of the
`common_negotiation_points` comprehension. -/
def negotiable (c : Clause) : Bool := is_red c || is_yellow c

/-- The sort key of `recommended_order_of_negotiation`:
`0 if risk == "red" else 1 if risk == "yellow" else 2`. -/
def risk_sort_key (c : Clause) : Nat :=
  if risk_lower c == "red" then 0 else if risk_lower c == "yellow" then 1 else 2

/-- `defn.get("term", "").lower()`, the dedup key of a definition entry. -/
def defn_key (d : Defn) : String := lowerStr (d.term.getD "")

/-- The dedup loop over `all_definitions` with its `seen_terms` set
(modelled as the list of keys added so far). -/
def unique_definitions_go (seen_terms : List String) : List Defn → List Defn
  | [] => []
  | defn :: rest =>
    if seen_terms.contains (defn_key defn) then unique_definitions_go seen_terms rest
    else defn :: unique_definitions_go (defn_key defn :: seen_terms) rest

/-- `unique_definitions` as built by the dedup loop starting from an empty
`seen_terms` set. -/
def unique_definitions (all_definitions : List Defn) : List Defn :=
  unique_definitions_go [] all_definitions

/-- Spec-side formulation of case-insensitive first-occurrence dedup
("Definitions concatenate then deduplicate by case-insensitive term, first
occurrence wins"): keep the head, delete every later entry with the same
key, recurse. -/
def firstOccurrenceDedup : List Defn → List Defn
  | [] => []
  | d :: rest =>
    d :: firstOccurrenceDedup (rest.filter (fun e => !(defn_key e == defn_key d)))
termination_by l => l.length
decreasing_by
  simp only [List.length_cons, Nat.lt_succ_iff]
  exact List.length_filter_le _ _

/-- One step of the quick-reference bucketing loop over `all_clauses`:
red goes to `deal_breakers`, yellow to `high_priority`, everything else to
`standard_terms`. -/
def bucketsStep (acc : List String × List String × List String) (c : Clause) :
    List String × List String × List String :=
  if is_red c then (acc.1 ++ [item_of c], acc.2.1, acc.2.2)
  else if is_yellow c then (acc.1, acc.2.1 ++ [item_of c], acc.2.2)
  else (acc.1, acc.2.1, acc.2.2 ++ [item_of c])

/-- The bucketing loop: `(deal_breakers, high_priority, standard_terms)`
accumulated over the merged clause list in encounter order. -/
def bucketsTriple (all_clauses : List Clause) :
    List String × List String × List String :=
  all_clauses.foldl bucketsStep ([], [], [])

/-- Insertion into a sorted list, placing the new element after every
element the comparison accepts first; building block of the stable sort
modelling Python's `sorted`. -/
def orderedInsertB {α : Type} (r : α → α → Bool) (a : α) : List α → List α
  | [] => [a]
  | b :: l => if r a b then a :: b :: l else b :: orderedInsertB r a l

/-- Insertion sort; with a total preorder comparison this is a stable sort,
matching the documented stability of Python's `sorted`. -/
def insertionSortB {α : Type} (r : α → α → Bool) : List α → List α
  | [] => []
  | a :: l => orderedInsertB r a (insertionSortB r l)

/-- `sorted(all_clauses, key=lambda x: 0 if ... "red" else 1 if ... "yellow" else 2)`:
stable sort of the merged clauses by the risk sort key. -/
def sorted_clauses (all_clauses : List Clause) : List Clause :=
  insertionSortB (fun a b => decide (risk_sort_key a ≤ risk_sort_key b)) all_clauses

/-- `[c.get("clause_title", "") for c in sorted(all_clauses, key=...)[:10]]`. -/
def recommended_order_of_negotiation (all_clauses : List Clause) : List String :=
  ((sorted_clauses all_clauses).take 10).map clause_title_of

/-- `[c.get("clause_title", "") for c in all_clauses[:10] if c.get("risk_level", "").lower() in ["red", "yellow"]]`. -/
def common_negotiation_points (all_clauses : List Clause) : List String :=
  ((all_clauses.take 10).filter negotiable).map clause_title_of

/-- Python truthiness of the `agreement_summary` accumulator:
`None` and the empty dict are falsy. -/
def truthySummary : Option Summary → Bool
  | none => false
  | some s => !s.isEmpty

/-- One loop iteration of
`if not agreement_summary and "agreement_summary" in chunk_result: agreement_summary = chunk_result["agreement_summary"]`. -/
def stepSummary (acc : Option Summary) (r : ChunkResult) : Option Summary :=
  if !truthySummary acc && r.agreement_summary.isSome then r.agreement_summary
  else acc

/-- Same update for `negotiation_strategy`. -/
def stepStrategy (acc : Option Strategy) (r : ChunkResult) : Option Strategy :=
  if !truthySummary acc && r.negotiation_strategy.isSome then r.negotiation_strategy
  else acc

/-- `x or default` on an optional JSON object: the default is used when the
accumulator is `None` or an empty (falsy) dict. -/
def pythonOr (acc : Option Summary) (dflt : Summary) : Summary :=
  match acc with
  | none => dflt
  | some s => if s.isEmpty then dflt else s

/-- The fallback `agreement_summary` literal of `combined_result`. -/
def defaultSummary (agreement_type : String) (deal_breakers_count : Nat) : Summary :=
  [("title", SVal.str "Contract Analysis"),
   ("agreement_type", SVal.str agreement_type),
   ("parties", SVal.str "Not specified"),
   ("purpose", SVal.str "Contract playbook analysis"),
   ("key_dates", SVal.str "Not specified"),
   ("governing_law", SVal.str "Not specified"),
   ("overall_risk_level", SVal.str "Medium"),
   ("critical_issues_count", SVal.num deal_breakers_count),
   ("executive_summary", SVal.str "Analysis completed. Review the clause-by-clause breakdown for detailed guidance.")]

/-- The fallback `negotiation_strategy` literal of `combined_result`;
`walk_away_triggers` is `deal_breakers[:5] if deal_breakers else [...]` on
the untruncated deal-breakers list. -/
def defaultStrategy (deal_breakers : List String) : Strategy :=
  [("opening_position", SVal.str "Start with highest-risk items to gauge counterparty flexibility"),
   ("key_leverage_points", SVal.strs ["Review clause analysis for specific leverage points"]),
   ("potential_trade_offs", SVal.strs ["See individual clause analyses for trade-off opportunities"]),
   ("walk_away_triggers", SVal.strs
     (if deal_breakers.isEmpty then ["No critical deal breakers identified"]
      else deal_breakers.take 5)),
   ("timing_considerations", SVal.str "Standard negotiation timeline applies")]

/-- `all_clauses`: `if "clauses" in chunk_result: all_clauses.extend(...)`
folded over the chunk results in order. -/
def collectClauses (results : List ChunkResult) : List Clause :=
  results.foldl (fun acc r => acc ++ r.clauses.getD []) []

/-- `all_definitions`, collected the same way. -/
def collectDefs (results : List ChunkResult) : List Defn :=
  results.foldl (fun acc r => acc ++ r.definitions.getD []) []

/-- The "Combine results" tail of `analyze_contract_chunked`: dedup the
definitions, bucket the clauses, and assemble `combined_result`. -/
def combineResults (agreement_type : String) (results : List ChunkResult) : Playbook :=
  let all_clauses := collectClauses results
  let all_definitions := collectDefs results
  let agreement_summary := results.foldl stepSummary none
  let negotiation_strategy := results.foldl stepStrategy none
  let b := bucketsTriple all_clauses
  let deal_breakers := b.1
  let high_priority := b.2.1
  let standard_terms := b.2.2
  { agreement_summary :=
      pythonOr agreement_summary (defaultSummary agreement_type deal_breakers.length),
    clauses := all_clauses,
    definitions := unique_definitions all_definitions,
    quick_reference :=
      { deal_breakers := deal_breakers.take 15,
        high_priority_items := high_priority.take 15,
        standard_acceptable_terms := standard_terms.take 15,
        common_negotiation_points := common_negotiation_points all_clauses,
        recommended_order_of_negotiation := recommended_order_of_negotiation all_clauses },
    negotiation_strategy :=
      pythonOr negotiation_strategy (defaultStrategy deal_breakers) }

/-- Outcome of `analyze_contract_chunked`: the short-text path returns the
single `analyze_contract` result dict unchanged, the chunked path returns
the combined playbook. -/
inductive ChunkedOutcome where
  | single : ChunkResult → ChunkedOutcome
  | combined : Playbook → ChunkedOutcome
deriving DecidableEq

/-- The per-chunk loop with its progress emissions: before analyzing chunk
`idx` the callback receives `int((idx + 1) / len(chunks) * 80)`; an
exception from `analyze_contract` aborts the loop.  Returns the emitted
percents and either the collected chunk results or the first error. -/
def chunkLoopTrace {ε : Type} (analyze : Nat → List Char → Except ε ChunkResult)
    (n : Nat) : Nat → List (List Char) → List Nat × Except ε (List ChunkResult)
  | _, [] => ([], Except.ok [])
  | idx, c :: rest =>
    match analyze idx c with
    | Except.error e => ([(idx + 1) * 80 / n], Except.error e)
    | Except.ok r =>
      match chunkLoopTrace analyze n (idx + 1) rest with
      | (ps, Except.error e) => ((idx + 1) * 80 / n :: ps, Except.error e)
      | (ps, Except.ok rs) => ((idx + 1) * 80 / n :: ps, Except.ok (r :: rs))

/-- `analyze_contract_chunked` with its progress-callback trace: the list of
percent values handed to `progress_callback` in order, paired with the
result.  The short path emits 20 then (on success) 100; the chunked path
emits the per-chunk percents, then 90 ("Combining analysis...") and 100 on
success. -/
def analyze_contract_chunked_trace {ε : Type}
    (analyze : Nat → List Char → Except ε ChunkResult) (agreement_type : String)
    (text : List Char) : List Nat × Except ε ChunkedOutcome :=
  if text.length < chunk_size then
    match analyze 0 text with
    | Except.error e => ([20], Except.error e)
    | Except.ok r => ([20, 100], Except.ok (ChunkedOutcome.single r))
  else
    match chunkLoopTrace analyze (chunksOf text).length 0 (chunksOf text) with
    | (ps, Except.error e) => (ps, Except.error e)
    | (ps, Except.ok rs) =>
      (ps ++ [90, 100],
        Except.ok (ChunkedOutcome.combined (combineResults agreement_type rs)))

/-- `analyze_contract_chunked` itself: the result component of the traced
run. -/
def analyze_contract_chunked {ε : Type}
    (analyze : Nat → List Char → Except ε ChunkResult) (agreement_type : String)
    (text : List Char) : Except ε ChunkedOutcome :=
  (analyze_contract_chunked_trace analyze agreement_type text).2

/-- A concrete analysis oracle that always succeeds with an empty parsed
result; used to exercise the single-call path. -/
def okOracle : Nat → List Char → Except Unit ChunkResult :=
  fun _ _ => Except.ok ⟨none, none, none, none⟩

/-- A concrete analysis oracle whose first call succeeds and whose later
calls raise; used to exercise exception propagation in the chunk loop. -/
def failSecondOracle : Nat → List Char → Except Unit ChunkResult :=
  fun i _ => if i = 0 then Except.ok ⟨none, none, none, none⟩ else Except.error ()

/-- Two parsed chunk results contributing no clauses, no definitions and no
summary; used to exercise the empty-merge path. -/
def emptyChunksExample : List ChunkResult :=
  [⟨none, none, none, none⟩, ⟨some [], some [], some [], none⟩]

theorem chunksOf_nil : chunksOf [] = [] := by
  rw [chunksOf]
  simp

theorem chunksOf_cons (l : List Char) (h : l ≠ []) :
    chunksOf l = l.take chunk_size :: chunksOf (l.drop chunk_size) := by
  rw [chunksOf]
  simp [h]

theorem chunksOf_flatten (l : List Char) : (chunksOf l).flatten = l := by
  by_cases h : l = []
  · subst h
    simp [chunksOf_nil]
  · rw [chunksOf_cons l h]
    have ih := chunksOf_flatten (l.drop chunk_size)
    simp [List.flatten, ih]
termination_by l.length
decreasing_by
  simp only [List.length_drop]
  have hl : 0 < l.length := List.length_pos.mpr h
  have : 0 < chunk_size := by decide
  omega

theorem chunksOf_length (l : List Char) :
    (chunksOf l).length = (l.length + chunk_size - 1) / chunk_size := by
  by_cases h : l = []
  · subst h
    simp [chunksOf_nil]
    decide
  · rw [chunksOf_cons l h]
    have ih := chunksOf_length (l.drop chunk_size)
    have hl : 0 < l.length := List.length_pos.mpr h
    have hS : 0 < chunk_size := by decide
    simp only [List.length_cons, ih, List.length_drop]
    rcases Nat.lt_or_ge (l.length) (chunk_size + 1) with hle | hgt
    · have h1 : l.length - chunk_size = 0 := by omega
      have h2 : l.length + chunk_size - 1 = (l.length - 1) + chunk_size := by omega
      rw [h1, h2, Nat.add_div_right _ hS]
      have h3 : (l.length - 1) / chunk_size = 0 := Nat.div_eq_of_lt (by omega)
      have h4 : (0 + chunk_size - 1) / chunk_size = 0 := Nat.div_eq_of_lt (by omega)
      omega
    · have h1 : l.length - chunk_size + chunk_size - 1 = (l.length - chunk_size - 1) + chunk_size := by
        omega
      have h2 : l.length + chunk_size - 1 = ((l.length - chunk_size - 1) + chunk_size) + chunk_size := by
        omega
      rw [h1, h2, Nat.add_div_right _ hS, Nat.add_div_right _ hS,
        Nat.add_div_right _ hS]
termination_by l.length
decreasing_by
  simp only [List.length_drop]
  have hl : 0 < l.length := List.length_pos.mpr h
  have : 0 < chunk_size := by decide
  omega

theorem chunksOf_mem_length_le (l : List Char) :
    ∀ seg ∈ chunksOf l, seg.length ≤ chunk_size := by
  by_cases h : l = []
  · subst h
    simp [chunksOf_nil]
  · rw [chunksOf_cons l h]
    intro seg hseg
    rcases List.mem_cons.mp hseg with h1 | h1
    · subst h1
      simpa using Nat.min_le_left chunk_size l.length
    · exact chunksOf_mem_length_le (l.drop chunk_size) seg h1
termination_by l.length
decreasing_by
  simp only [List.length_drop]
  have hl : 0 < l.length := List.length_pos.mpr h
  have : 0 < chunk_size := by decide
  omega

theorem chunksOf_mem_ne_nil (l : List Char) :
    ∀ seg ∈ chunksOf l, seg ≠ [] := by
  by_cases h : l = []
  · subst h
    simp [chunksOf_nil]
  · rw [chunksOf_cons l h]
    intro seg hseg
    rcases List.mem_cons.mp hseg with h1 | h1
    · subst h1
      have hl : 0 < l.length := List.length_pos.mpr h
      have : (l.take chunk_size).length = min chunk_size l.length := List.length_take _ _
      intro hnil
      rw [hnil] at this
      simp at this
      have : 0 < chunk_size := by decide
      omega
    · exact chunksOf_mem_ne_nil (l.drop chunk_size) seg h1
termination_by l.length
decreasing_by
  simp only [List.length_drop]
  have hl : 0 < l.length := List.length_pos.mpr h
  have : 0 < chunk_size := by decide
  omega

/-- C1: the chunk planner of `analyze_contract_chunked` partitions the text:
concatenating the planned segments gives back the text exactly, every
segment has length at most `chunk_size`, no segment is empty unless the text
itself is empty, the number of segments is `ceil(L / chunk_size)` whenever
the text is non-empty, and a text shorter than `chunk_size` bypasses
chunking and is analyzed as the single whole-text segment. -/
theorem chunk_planner_partitions (text : List Char) :
    (planChunks text).flatten = text ∧
    (∀ seg ∈ planChunks text, seg.length ≤ chunk_size) ∧
    (text ≠ [] → ∀ seg ∈ planChunks text, seg ≠ []) ∧
    (text ≠ [] →
      (planChunks text).length = (text.length + chunk_size - 1) / chunk_size) ∧
    (text.length < chunk_size → planChunks text = [text]) := by
  unfold planChunks
  by_cases h : text.length < chunk_size
  · simp only [if_pos h]
    refine ⟨by simp, ?_, ?_, ?_, by simp⟩
    · intro seg hseg
      rcases List.mem_singleton.mp hseg with rfl
      omega
    · intro hne seg hseg
      rcases List.mem_singleton.mp hseg with rfl
      exact hne
    · intro hne
      have hl : 0 < text.length := List.length_pos.mpr hne
      simp only [List.length_singleton]
      have : (text.length + chunk_size - 1) / chunk_size = 0 + 1 := by
        have h2 : text.length + chunk_size - 1 = (text.length - 1) + chunk_size := by omega
        rw [h2, Nat.add_div_right _ (by decide : 0 < chunk_size)]
        have : (text.length - 1) / chunk_size = 0 := Nat.div_eq_of_lt (by omega)
        omega
      omega
  · simp only [if_neg h]
    exact ⟨chunksOf_flatten text, chunksOf_mem_length_le text,
      fun _ => chunksOf_mem_ne_nil text, fun _ => chunksOf_length text,
      fun hlt => absurd hlt h⟩

/-- Witness for C1 at a concrete short text: the bypass path analyzes the
whole text as a single segment, and the partition round-trips. -/
theorem chunk_planner_partitions_witness :
    (planChunks "hello world".data).flatten = "hello world".data ∧
    planChunks "hello world".data = ["hello world".data] :=
  ⟨(chunk_planner_partitions "hello world".data).1,
    (chunk_planner_partitions "hello world".data).2.2.2.2 (by decide)⟩

theorem firstOccurrenceDedup_nil : firstOccurrenceDedup [] = [] := by
  rw [firstOccurrenceDedup]

theorem firstOccurrenceDedup_cons (d : Defn) (rest : List Defn) :
    firstOccurrenceDedup (d :: rest) =
      d :: firstOccurrenceDedup (rest.filter (fun e => !(defn_key e == defn_key d))) := by
  rw [firstOccurrenceDedup]

theorem unique_definitions_go_eq (l : List Defn) :
    ∀ seen : List String,
      unique_definitions_go seen l =
        firstOccurrenceDedup (l.filter (fun d => !(seen.contains (defn_key d)))) := by
  induction l with
  | nil => intro seen; simp [unique_definitions_go, firstOccurrenceDedup_nil]
  | cons d rest ih =>
    intro seen
    by_cases hc : seen.contains (defn_key d)
    · have hm : defn_key d ∈ seen := by simpa using hc
      simp [unique_definitions_go, hc, hm, List.filter_cons, ih]
    · simp only [unique_definitions_go, if_neg hc, List.filter_cons,
        Bool.not_eq_true] at *
      rw [hc]
      simp only [Bool.not_false, if_pos]
      rw [firstOccurrenceDedup_cons, ih (defn_key d :: seen)]
      congr 2
      rw [List.filter_filter]
      apply List.filter_congr
      intro e _
      simp only [List.contains_cons]
      cases he : defn_key e == defn_key d <;> simp [he]

theorem unique_definitions_eq (l : List Defn) :
    unique_definitions l = firstOccurrenceDedup l := by
  rw [unique_definitions, unique_definitions_go_eq l []]
  congr 1
  simp

theorem foldl_append_eq_flatten {α β : Type} (f : β → List α) (l : List β)
    (a : List α) :
    l.foldl (fun acc r => acc ++ f r) a = a ++ (l.map f).flatten := by
  induction l generalizing a with
  | nil => simp
  | cons r t ih => simp [ih, List.append_assoc]

theorem collectDefs_eq_flatten (results : List ChunkResult) :
    collectDefs results = (results.map (fun r => r.definitions.getD [])).flatten := by
  simpa using foldl_append_eq_flatten (fun r => r.definitions.getD []) results []

theorem collectClauses_eq_flatten (results : List ChunkResult) :
    collectClauses results = (results.map (fun r => r.clauses.getD [])).flatten := by
  simpa using foldl_append_eq_flatten (fun r => r.clauses.getD []) results []

theorem firstOccurrenceDedup_sublist (l : List Defn) :
    (firstOccurrenceDedup l).Sublist l := by
  cases l with
  | nil => simp [firstOccurrenceDedup_nil]
  | cons d rest =>
    rw [firstOccurrenceDedup_cons]
    apply List.Sublist.cons₂
    exact (firstOccurrenceDedup_sublist _).trans (List.filter_sublist rest)
termination_by l.length
decreasing_by
  simp only [List.length_cons, Nat.lt_succ_iff]
  exact List.length_filter_le _ _

theorem firstOccurrenceDedup_filter_key_le_one (l : List Defn) (k : String) :
    ((firstOccurrenceDedup l).filter (fun e => defn_key e == k)).length ≤ 1 := by
  cases l with
  | nil => simp [firstOccurrenceDedup_nil]
  | cons d rest =>
    rw [firstOccurrenceDedup_cons]
    by_cases hk : defn_key d == k
    · simp only [List.filter_cons, hk, if_pos]
      have hkd : defn_key d = k := by simpa using hk
      have hnone :
          (firstOccurrenceDedup
            (rest.filter (fun e => !(defn_key e == defn_key d)))).filter
            (fun e => defn_key e == k) = [] := by
        apply List.filter_eq_nil_iff.mpr
        intro e he
        have : e ∈ rest.filter (fun e => !(defn_key e == defn_key d)) :=
          (firstOccurrenceDedup_sublist _).mem he
        have := (List.mem_filter.mp this).2
        simp only [Bool.not_eq_true'] at this
        rw [hkd] at this
        simp [this]
      simp [hnone]
    · simp only [List.filter_cons, hk]
      simpa using
        firstOccurrenceDedup_filter_key_le_one
          (rest.filter (fun e => !(defn_key e == defn_key d))) k
termination_by l.length
decreasing_by
  simp only [List.length_cons, Nat.lt_succ_iff]
  exact List.length_filter_le _ _

theorem length_filter_le_of_imp {α : Type} (p q : α → Bool) (l : List α)
    (h : ∀ a, p a = true → q a = true) :
    (l.filter p).length ≤ (l.filter q).length := by
  induction l with
  | nil => simp
  | cons a t ih =>
    by_cases hp : p a
    · have hq := h a hp
      simp [List.filter_cons, hp, hq, Nat.succ_le_succ ih]
    · by_cases hq : q a
      · simp only [List.filter_cons, hp, hq]
        simp only [Bool.false_eq_true, if_false, if_pos, List.length_cons]
        omega
      · simp [List.filter_cons, hp, hq, ih]

theorem firstOccurrenceDedup_mem_of_empty_key (d : Defn) (hd : defn_key d = "") :
    ∀ l1 l2 : List Defn, (∀ e ∈ l1, defn_key e ≠ "") →
      d ∈ firstOccurrenceDedup (l1 ++ d :: l2)
  | [], l2, _ => by
    rw [List.nil_append, firstOccurrenceDedup_cons]
    exact List.mem_cons_self d _
  | e :: t, l2, h1 => by
    rw [List.cons_append, firstOccurrenceDedup_cons]
    apply List.mem_cons_of_mem
    have hfd : (!(defn_key d == defn_key e)) = true := by
      have : defn_key e ≠ "" := h1 e (List.mem_cons_self e t)
      rw [hd]
      simp [Ne.symm this]
    have hsplit :
        (t ++ d :: l2).filter (fun x => !(defn_key x == defn_key e)) =
          (t.filter (fun x => !(defn_key x == defn_key e))) ++
            d :: (l2.filter (fun x => !(defn_key x == defn_key e))) := by
      rw [List.filter_append, List.filter_cons, hfd]
      simp
    rw [hsplit]
    exact firstOccurrenceDedup_mem_of_empty_key d hd
      (t.filter (fun x => !(defn_key x == defn_key e)))
      (l2.filter (fun x => !(defn_key x == defn_key e)))
      (fun x hx => h1 x (List.mem_cons_of_mem e (List.mem_filter.mp hx).1))
termination_by l1 _ _ => l1.length
decreasing_by
  simp only [List.length_cons, Nat.lt_succ_iff]
  exact List.length_filter_le _ _

theorem foldl_stepSummary_truthy (rest : List ChunkResult) (acc : Option Summary)
    (h : truthySummary acc = true) : rest.foldl stepSummary acc = acc := by
  induction rest with
  | nil => rfl
  | cons r t ih =>
    have : stepSummary acc r = acc := by simp [stepSummary, h]
    simp [List.foldl_cons, this, ih]

theorem foldl_stepSummary_falsy (rest : List ChunkResult) :
    ∀ acc : Option Summary, truthySummary acc = false →
      (∀ r ∈ rest, truthySummary r.agreement_summary = false) →
      truthySummary (rest.foldl stepSummary acc) = false := by
  induction rest with
  | nil => intro acc h _; simpa using h
  | cons r t ih =>
    intro acc h hall
    simp only [List.foldl_cons]
    apply ih
    · unfold stepSummary
      by_cases hs : (!truthySummary acc && r.agreement_summary.isSome) = true
      · rw [if_pos hs]
        exact hall r (List.mem_cons_self r t)
      · rw [if_neg hs]
        exact h
    · exact fun x hx => hall x (List.mem_cons_of_mem r hx)

theorem pythonOr_falsy (acc : Option Summary) (d : Summary)
    (h : truthySummary acc = false) : pythonOr acc d = d := by
  cases acc with
  | none => rfl
  | some s =>
    simp only [truthySummary, Bool.not_eq_false'] at h
    simp [pythonOr, h]

theorem pythonOr_truthy (s : Summary) (d : Summary) (h : s ≠ []) :
    pythonOr (some s) d = s := by
  cases s with
  | nil => exact absurd rfl h
  | cons a t => rfl

theorem is_red_not_yellow (c : Clause) (h : is_red c = true) :
    is_yellow c = false := by
  simp only [is_red, beq_iff_eq] at h
  simp [is_yellow, h]

theorem bucketsTriple_go (l : List Clause) :
    ∀ d h s : List String,
      l.foldl bucketsStep (d, h, s) =
        (d ++ (l.filter is_red).map item_of,
         h ++ (l.filter is_yellow).map item_of,
         s ++ (l.filter is_other_risk).map item_of) := by
  induction l with
  | nil => intro d h s; simp
  | cons a t ih =>
    intro d h s
    simp only [List.foldl_cons]
    by_cases h1 : is_red a
    · have h2 : is_yellow a = false := is_red_not_yellow a h1
      have hstep : bucketsStep (d, h, s) a = (d ++ [item_of a], h, s) := by
        simp [bucketsStep, h1]
      rw [hstep, ih]
      simp [List.filter_cons, h1, h2, is_other_risk, List.append_assoc]
    · by_cases h2 : is_yellow a
      · have hstep : bucketsStep (d, h, s) a = (d, h ++ [item_of a], s) := by
          simp [bucketsStep, h1, h2]
        rw [hstep, ih]
        simp [List.filter_cons, h1, h2, is_other_risk, List.append_assoc]
      · have hstep : bucketsStep (d, h, s) a = (d, h, s ++ [item_of a]) := by
          simp [bucketsStep, h1, h2]
        rw [hstep, ih]
        simp [List.filter_cons, h1, h2, is_other_risk, List.append_assoc]

theorem bucketsTriple_eq_filters (l : List Clause) :
    bucketsTriple l =
      ((l.filter is_red).map item_of,
       (l.filter is_yellow).map item_of,
       (l.filter is_other_risk).map item_of) := by
  simpa using bucketsTriple_go l [] [] []

theorem risk_sort_key_cases (c : Clause) :
    risk_sort_key c = 0 ∨ risk_sort_key c = 1 ∨ risk_sort_key c = 2 := by
  unfold risk_sort_key
  by_cases h1 : risk_lower c == "red" <;> by_cases h2 : risk_lower c == "yellow" <;>
    simp [h1, h2]

theorem orderedInsertB_pos {α : Type} (r : α → α → Bool) (a : α) (s : List α)
    (h : ∀ b ∈ s, r a b = true) : orderedInsertB r a s = a :: s := by
  cases s with
  | nil => rfl
  | cons b t => simp [orderedInsertB, h b (List.mem_cons_self b t)]

theorem orderedInsertB_neg_append {α : Type} (r : α → α → Bool) (a : α)
    (t s : List α) (h : ∀ b ∈ t, r a b = false) :
    orderedInsertB r a (t ++ s) = t ++ orderedInsertB r a s := by
  induction t with
  | nil => simp
  | cons b u ih =>
    have hb := h b (List.mem_cons_self b u)
    simp only [List.cons_append, orderedInsertB, hb]
    simp only [Bool.false_eq_true, if_false, List.cons.injEq, true_and]
    exact ih (fun x hx => h x (List.mem_cons_of_mem b hx))

theorem sorted_clauses_eq_buckets (l : List Clause) :
    sorted_clauses l =
      l.filter (fun c => risk_sort_key c == 0) ++
        l.filter (fun c => risk_sort_key c == 1) ++
          l.filter (fun c => risk_sort_key c == 2) := by
  unfold sorted_clauses
  induction l with
  | nil => rfl
  | cons a t ih =>
    simp only [insertionSortB]
    rw [ih]
    rcases risk_sort_key_cases a with h | h | h
    · rw [orderedInsertB_pos _ _ _ (fun b _ => by simp [h])]
      simp [List.filter_cons, h]
    · rw [List.append_assoc]
      rw [orderedInsertB_neg_append _ _ _ _ (fun b hb => by
        have hb2 := (List.mem_filter.mp hb).2
        simp only [beq_iff_eq] at hb2
        simp [h, hb2])]
      rw [orderedInsertB_pos _ _ _ (fun b hb => by
        rcases List.mem_append.mp hb with hb1 | hb1
        · have hb2 := (List.mem_filter.mp hb1).2
          simp only [beq_iff_eq] at hb2
          simp [h, hb2]
        · have hb2 := (List.mem_filter.mp hb1).2
          simp only [beq_iff_eq] at hb2
          simp [h, hb2])]
      simp [List.filter_cons, h, List.append_assoc]
    · rw [orderedInsertB_neg_append _ _ _ _ (fun b hb => by
        rcases List.mem_append.mp hb with hb1 | hb1
        · have hb2 := (List.mem_filter.mp hb1).2
          simp only [beq_iff_eq] at hb2
          simp [h, hb2]
        · have hb2 := (List.mem_filter.mp hb1).2
          simp only [beq_iff_eq] at hb2
          simp [h, hb2])]
      rw [orderedInsertB_pos _ _ _ (fun b hb => by
        have hb2 := (List.mem_filter.mp hb).2
        simp only [beq_iff_eq] at hb2
        simp [h, hb2])]
      simp [List.filter_cons, h, List.append_assoc]

theorem chunkLoopTrace_error {ε : Type} (analyze : Nat → List Char → Except ε ChunkResult)
    (n : Nat) (e : ε) :
    ∀ (chunks : List (List Char)) (i0 k : Nat), k < chunks.length →
      analyze (i0 + k) (chunks.getD k []) = Except.error e →
      (∀ j, j < k → ∃ r, analyze (i0 + j) (chunks.getD j []) = Except.ok r) →
      (chunkLoopTrace analyze n i0 chunks).2 = Except.error e := by
  intro chunks
  induction chunks with
  | nil => intro i0 k hk; simp at hk
  | cons c rest ih =>
    intro i0 k hk herr hok
    cases k with
    | zero =>
      simp only [List.getD_cons_zero, Nat.add_zero] at herr
      simp [chunkLoopTrace, herr]
    | succ k2 =>
      obtain ⟨r, hr⟩ := hok 0 (Nat.succ_pos k2)
      simp only [List.getD_cons_zero, Nat.add_zero] at hr
      have ht := ih (i0 + 1) k2 (by simpa using hk)
        (by
          simp only [List.getD_cons_succ] at herr
          rw [show i0 + 1 + k2 = i0 + (k2 + 1) from by omega]
          exact herr)
        (fun j hj => by
          obtain ⟨r2, hr2⟩ := hok (j + 1) (by omega)
          refine ⟨r2, ?_⟩
          simp only [List.getD_cons_succ] at hr2
          rw [show i0 + 1 + j = i0 + (j + 1) from by omega]
          exact hr2)
      rcases hrec : chunkLoopTrace analyze n (i0 + 1) rest with ⟨ps, res⟩
      rw [hrec] at ht
      simp only at ht
      subst ht
      simp [chunkLoopTrace, hr, hrec]

theorem chunkLoopTrace_fst_of_ok {ε : Type}
    (analyze : Nat → List Char → Except ε ChunkResult) (n : Nat) :
    ∀ (chunks : List (List Char)) (i0 : Nat) (rs : List ChunkResult),
      (chunkLoopTrace analyze n i0 chunks).2 = Except.ok rs →
      (chunkLoopTrace analyze n i0 chunks).1 =
        (List.range chunks.length).map (fun j => (i0 + j + 1) * 80 / n) := by
  intro chunks
  induction chunks with
  | nil => intro i0 rs _; simp [chunkLoopTrace]
  | cons c rest ih =>
    intro i0 rs h
    cases ha : analyze i0 c with
    | error e =>
      rw [chunkLoopTrace, ha] at h
      simp at h
    | ok r =>
      rcases hrec : chunkLoopTrace analyze n (i0 + 1) rest with ⟨ps, res⟩
      cases res with
      | error e =>
        rw [chunkLoopTrace, ha, hrec] at h
        simp at h
      | ok rs2 =>
        have hfst := ih (i0 + 1) rs2 (by rw [hrec])
        rw [hrec] at hfst
        simp only at hfst
        rw [chunkLoopTrace, ha, hrec]
        show (i0 + 1) * 80 / n :: ps =
          List.map (fun j => (i0 + j + 1) * 80 / n) (List.range (rest.length + 1))
        rw [hfst, List.range_succ_eq_map]
        simp only [List.map_cons, List.map_map]
        refine congrArg₂ (· :: ·) ?_ ?_
        · norm_num
        · apply List.map_congr_left
          intro j _
          simp only [Function.comp_apply]
          rw [show i0 + 1 + j + 1 = i0 + (j + 1) + 1 from by omega]

/-- C3: the merged playbook's definitions are the chunk-ordered
concatenation of the per-chunk definition lists, deduplicated by
case-insensitive term with the first occurrence (original casing) kept;
the claim's example [Fee, fee, Term] yields exactly [Fee, Term]. -/
theorem merged_definitions_dedup :
    (∀ (agreement_type : String) (results : List ChunkResult),
      (combineResults agreement_type results).definitions =
        firstOccurrenceDedup ((results.map (fun r => r.definitions.getD [])).flatten)) ∧
    unique_definitions
        [⟨some "Fee", none⟩, ⟨some "fee", none⟩, ⟨some "Term", none⟩] =
      [⟨some "Fee", none⟩, ⟨some "Term", none⟩] := by
  constructor
  · intro agreement_type results
    show unique_definitions (collectDefs results) = _
    rw [unique_definitions_eq, collectDefs_eq_flatten]
  · decide

/-- C9 counterexample: with an explicit empty-string term first, the input
holds two term-less entries yet the first term-less entry does not survive
the dedup (the empty-string entry owns the "" key), refuting the claim that
the first term-less entry always survives. -/
theorem termless_definitions_counterexample :
    (⟨none, some "A"⟩ : Defn).term = none ∧
    (⟨none, some "B"⟩ : Defn).term = none ∧
    unique_definitions [⟨some "", some "X"⟩, ⟨none, some "A"⟩, ⟨none, some "B"⟩] =
      [⟨some "", some "X"⟩] ∧
    (⟨none, some "A"⟩ : Defn) ∉
      unique_definitions [⟨some "", some "X"⟩, ⟨none, some "A"⟩, ⟨none, some "B"⟩] := by
  refine ⟨rfl, rfl, by decide, by decide⟩

/-- C9 (amended): every definition entry lacking a term is keyed by the
empty string, so at most one term-less entry survives the merged
definitions (all later ones silently dropped even with different
definition texts), and the first term-less entry does survive whenever no
earlier entry's key is the empty string. -/
theorem termless_definitions_share_empty_key (d : Defn) (hd : d.term = none) :
    defn_key d = "" ∧
    (∀ l : List Defn,
      ((unique_definitions l).filter (fun e => e.term.isNone)).length ≤ 1) ∧
    (∀ l1 l2 : List Defn, (∀ e ∈ l1, defn_key e ≠ "") →
      d ∈ unique_definitions (l1 ++ d :: l2)) := by
  have hkey : defn_key d = "" := by
    rw [defn_key, hd]
    rfl
  refine ⟨hkey, ?_, ?_⟩
  · intro l
    rw [unique_definitions_eq]
    calc ((firstOccurrenceDedup l).filter (fun e => e.term.isNone)).length
        ≤ ((firstOccurrenceDedup l).filter (fun e => defn_key e == "")).length := by
          apply length_filter_le_of_imp
          intro a ha
          have ha2 : a.term = none := by simpa using ha
          rw [defn_key, ha2]
          rfl
      _ ≤ 1 := firstOccurrenceDedup_filter_key_le_one l ""
  · intro l1 l2 h1
    rw [unique_definitions_eq]
    exact firstOccurrenceDedup_mem_of_empty_key d hkey l1 l2 h1

/-- Witness for C9 (amended) at concrete inputs. -/
theorem termless_definitions_share_empty_key_witness :
    defn_key ⟨none, some "A"⟩ = "" ∧
    ((unique_definitions [⟨none, some "A"⟩, ⟨none, some "B"⟩]).filter
        (fun e => e.term.isNone)).length ≤ 1 ∧
    (⟨none, some "A"⟩ : Defn) ∈
      unique_definitions
        ([⟨some "Fee", some "F"⟩] ++ ⟨none, some "A"⟩ :: [⟨none, some "B"⟩]) := by
  have h := termless_definitions_share_empty_key ⟨none, some "A"⟩ rfl
  exact ⟨h.1, h.2.1 [⟨none, some "A"⟩, ⟨none, some "B"⟩],
    h.2.2 [⟨some "Fee", some "F"⟩] [⟨none, some "B"⟩] (by decide)⟩

/-- C4 counterexample: when the first chunk's summary is the empty object
(falsy in Python), a later chunk's non-empty summary wins the merge, so
the first chunk's summary object is not adopted verbatim and the later one
is not discarded. -/
theorem first_chunk_summary_counterexample :
    (⟨none, none, some [], none⟩ : ChunkResult).agreement_summary = some [] ∧
    (combineResults "General Agreement"
        [⟨none, none, some [], none⟩,
         ⟨none, none, some [("title", SVal.str "Later")], none⟩]).agreement_summary =
      [("title", SVal.str "Later")] ∧
    ([("title", SVal.str "Later")] : Summary) ≠ [] := by
  refine ⟨rfl, by decide, by decide⟩

/-- C4 (amended): if the first chunk's parsed result carries a non-empty
agreement_summary object, that object is adopted verbatim as the merged
playbook's summary and every later chunk's summary is discarded. -/
theorem first_chunk_summary_adopted (agreement_type : String) (r : ChunkResult)
    (rest : List ChunkResult) (s : Summary) (h1 : r.agreement_summary = some s)
    (h2 : s ≠ []) :
    (combineResults agreement_type (r :: rest)).agreement_summary = s := by
  have hs : truthySummary (some s) = true := by
    cases s with
    | nil => exact absurd rfl h2
    | cons a t => rfl
  show pythonOr ((r :: rest).foldl stepSummary none) _ = s
  have hstep : stepSummary none r = some s := by
    simp [stepSummary, truthySummary, h1]
  rw [List.foldl_cons, hstep, foldl_stepSummary_truthy rest (some s) hs]
  exact pythonOr_truthy s _ h2

/-- Witness for C4 (amended): a non-empty first summary survives a later
one. -/
theorem first_chunk_summary_adopted_witness :
    (combineResults "General Agreement"
        [⟨none, none, some [("title", SVal.str "T")], none⟩,
         ⟨none, none, some [("title", SVal.str "U")], none⟩]).agreement_summary =
      [("title", SVal.str "T")] :=
  first_chunk_summary_adopted "General Agreement" _ _ _ rfl (by decide)

/-- C5: the recommended order of negotiation equals the clause titles of
the merged clauses stable-sorted by key Red=0 < Yellow=1 < Green=2 (for a
three-valued key a stable sort is exactly the in-order concatenation of
the key-0, key-1 and key-2 sublists, so ties keep encounter order),
truncated to the top 10; the claim's example with risk levels
[Red, Green, Yellow, Red] and titles [A, B, C, D] yields [A, D, C, B]. -/
theorem recommended_order_stable_sorted :
    (∀ (agreement_type : String) (results : List ChunkResult),
      (combineResults agreement_type results).quick_reference.recommended_order_of_negotiation =
        (((collectClauses results).filter (fun c => risk_sort_key c == 0) ++
            (collectClauses results).filter (fun c => risk_sort_key c == 1) ++
              (collectClauses results).filter (fun c => risk_sort_key c == 2)).map
            clause_title_of).take 10) ∧
    (combineResults "T"
        [⟨some [⟨some "1", some "A", some "Red"⟩, ⟨some "2", some "B", some "Green"⟩,
            ⟨some "3", some "C", some "Yellow"⟩, ⟨none, some "D", some "Red"⟩],
          none, none, none⟩]).quick_reference.recommended_order_of_negotiation =
      ["A", "D", "C", "B"] := by
  constructor
  · intro agreement_type results
    show ((sorted_clauses (collectClauses results)).take 10).map clause_title_of = _
    rw [sorted_clauses_eq_buckets, List.map_take]
  · decide

/-- C6: the quick-reference derivation partitions the merged clauses by
risk level into deal-breakers (red), high-priority (yellow) and standard
terms (everything else, in particular green), each bucket in encounter
order and truncated to at most 15 entries; the claim's example with risk
levels [Red, Green, Yellow, Red] gives buckets of sizes 2, 1, 1 in input
order. -/
theorem quick_reference_bucketing :
    (∀ (agreement_type : String) (results : List ChunkResult),
      (combineResults agreement_type results).quick_reference.deal_breakers =
          (((collectClauses results).filter is_red).map item_of).take 15 ∧
        (combineResults agreement_type results).quick_reference.high_priority_items =
          (((collectClauses results).filter is_yellow).map item_of).take 15 ∧
        (combineResults agreement_type results).quick_reference.standard_acceptable_terms =
          (((collectClauses results).filter is_other_risk).map item_of).take 15 ∧
        (combineResults agreement_type results).quick_reference.deal_breakers.length ≤ 15 ∧
        (combineResults agreement_type results).quick_reference.high_priority_items.length ≤ 15 ∧
        (combineResults agreement_type results).quick_reference.standard_acceptable_terms.length ≤ 15) ∧
    (∀ c : Clause, risk_lower c = "green" → is_other_risk c = true) ∧
    ((combineResults "T"
        [⟨some [⟨some "1", some "A", some "Red"⟩, ⟨some "2", some "B", some "Green"⟩,
            ⟨some "3", some "C", some "Yellow"⟩, ⟨none, some "D", some "Red"⟩],
          none, none, none⟩]).quick_reference.deal_breakers =
        ["A (Section 1)", "D"] ∧
      (combineResults "T"
        [⟨some [⟨some "1", some "A", some "Red"⟩, ⟨some "2", some "B", some "Green"⟩,
            ⟨some "3", some "C", some "Yellow"⟩, ⟨none, some "D", some "Red"⟩],
          none, none, none⟩]).quick_reference.high_priority_items =
        ["C (Section 3)"] ∧
      (combineResults "T"
        [⟨some [⟨some "1", some "A", some "Red"⟩, ⟨some "2", some "B", some "Green"⟩,
            ⟨some "3", some "C", some "Yellow"⟩, ⟨none, some "D", some "Red"⟩],
          none, none, none⟩]).quick_reference.standard_acceptable_terms =
        ["B (Section 2)"]) := by
  refine ⟨?_, ?_, by decide⟩
  · intro agreement_type results
    have hb := bucketsTriple_eq_filters (collectClauses results)
    refine ⟨?_, ?_, ?_, ?_, ?_, ?_⟩
    · show (bucketsTriple (collectClauses results)).1.take 15 = _
      rw [hb]
    · show (bucketsTriple (collectClauses results)).2.1.take 15 = _
      rw [hb]
    · show (bucketsTriple (collectClauses results)).2.2.take 15 = _
      rw [hb]
    · show ((bucketsTriple (collectClauses results)).1.take 15).length ≤ 15
      exact List.length_take_le _ _
    · show ((bucketsTriple (collectClauses results)).2.1.take 15).length ≤ 15
      exact List.length_take_le _ _
    · show ((bucketsTriple (collectClauses results)).2.2.take 15).length ≤ 15
      exact List.length_take_le _ _
  · intro c h
    simp [is_other_risk, is_red, is_yellow, h]

/-- Witness for C6: the bucket partition evaluated on a green clause. -/
theorem quick_reference_bucketing_witness :
    (combineResults "T" [⟨some [⟨none, some "G", some "Green"⟩], none, none, none⟩]).quick_reference.deal_breakers =
      (((collectClauses [⟨some [⟨none, some "G", some "Green"⟩], none, none, none⟩]).filter is_red).map item_of).take 15 ∧
    is_other_risk ⟨none, some "G", some "Green"⟩ = true := by
  have h := quick_reference_bucketing
  exact ⟨(h.1 "T" [⟨some [⟨none, some "G", some "Green"⟩], none, none, none⟩]).1,
    h.2.1 ⟨none, some "G", some "Green"⟩ (by decide)⟩

/-- C10: a clause whose lower-cased risk level is neither "red" nor
"yellow" (missing, empty, or any other value) is treated exactly as green:
the bucketing loop appends it to the standard bucket and leaves the other
buckets unchanged, the common-negotiation-points comprehension excludes
it, and the recommended-order sort assigns it the last key 2. -/
theorem non_red_yellow_treated_as_green (c : Clause)
    (h1 : risk_lower c ≠ "red") (h2 : risk_lower c ≠ "yellow") :
    risk_sort_key c = 2 ∧
    (∀ l : List Clause, bucketsTriple (l ++ [c]) =
      ((bucketsTriple l).1, (bucketsTriple l).2.1,
        (bucketsTriple l).2.2 ++ [item_of c])) ∧
    (∀ l : List Clause,
      common_negotiation_points (l ++ [c]) = common_negotiation_points l) := by
  have hred : is_red c = false := by simp [is_red, h1]
  have hyel : is_yellow c = false := by simp [is_yellow, h2]
  refine ⟨?_, ?_, ?_⟩
  · simp [risk_sort_key, h1, h2]
  · intro l
    unfold bucketsTriple
    rw [List.foldl_append]
    simp [bucketsStep, hred, hyel]
  · intro l
    unfold common_negotiation_points
    rw [List.take_append_eq_append_take, List.filter_append]
    have hneg : negotiable c = false := by simp [negotiable, hred, hyel]
    have hnil : List.filter negotiable (List.take (10 - l.length) [c]) = [] := by
      cases h10 : 10 - l.length with
      | zero => simp
      | succ m => simp [hneg]
    rw [hnil]
    simp

/-- Witness for C10 at a concrete clause with risk level "Confidential". -/
theorem non_red_yellow_treated_as_green_witness :
    risk_sort_key ⟨none, some "X", some "Confidential"⟩ = 2 ∧
    bucketsTriple ([⟨some "1", some "A", some "Red"⟩] ++ [⟨none, some "X", some "Confidential"⟩]) =
      ((bucketsTriple [⟨some "1", some "A", some "Red"⟩]).1,
        (bucketsTriple [⟨some "1", some "A", some "Red"⟩]).2.1,
        (bucketsTriple [⟨some "1", some "A", some "Red"⟩]).2.2 ++
          [item_of ⟨none, some "X", some "Confidential"⟩]) ∧
    common_negotiation_points ([⟨some "1", some "A", some "Red"⟩] ++ [⟨none, some "X", some "Confidential"⟩]) =
      common_negotiation_points [⟨some "1", some "A", some "Red"⟩] := by
  have h := non_red_yellow_treated_as_green ⟨none, some "X", some "Confidential"⟩
    (by decide) (by decide)
  exact ⟨h.1, h.2.1 [⟨some "1", some "A", some "Red"⟩], h.2.2 [⟨some "1", some "A", some "Red"⟩]⟩

/-- C2: over one successful run of `analyze_contract_chunked`, the percent
values handed to the progress callback are monotonically non-decreasing
and the final emitted percent is exactly 100, emitted exactly once. -/
theorem progress_monotone_and_terminal {ε : Type}
    (analyze : Nat → List Char → Except ε ChunkResult) (agreement_type : String)
    (text : List Char) (out : ChunkedOutcome)
    (h : (analyze_contract_chunked_trace analyze agreement_type text).2 = Except.ok out) :
    List.Sorted (· ≤ ·) (analyze_contract_chunked_trace analyze agreement_type text).1 ∧
    (analyze_contract_chunked_trace analyze agreement_type text).1.getLast? = some 100 ∧
    (analyze_contract_chunked_trace analyze agreement_type text).1.count 100 = 1 := by
  unfold analyze_contract_chunked_trace at h ⊢
  by_cases hlt : text.length < chunk_size
  · rw [if_pos hlt] at h ⊢
    cases ha : analyze 0 text with
    | error e => rw [ha] at h; simp at h
    | ok r =>
      refine ⟨?_, rfl, rfl⟩
      show List.Sorted (· ≤ ·) [20, 100]
      norm_num [List.sorted_cons]
  · rw [if_neg hlt] at h ⊢
    rcases hrec : chunkLoopTrace analyze (chunksOf text).length 0 (chunksOf text)
      with ⟨ps, res⟩
    cases res with
    | error e => rw [hrec] at h; simp at h
    | ok rs =>
      have hCS : 0 < chunk_size := by decide
      have hn : 0 < (chunksOf text).length := by
        rw [chunksOf_length]
        exact Nat.div_pos (by omega) hCS
      have hps : ps = (List.range (chunksOf text).length).map
          (fun j => (0 + j + 1) * 80 / (chunksOf text).length) := by
        have h2 := chunkLoopTrace_fst_of_ok analyze (chunksOf text).length
          (chunksOf text) 0 rs (by rw [hrec])
        rw [hrec] at h2
        simpa using h2
      subst hps
      show List.Sorted (· ≤ ·) (_ ++ [90, 100]) ∧
        (_ ++ [90, 100]).getLast? = some 100 ∧ (_ ++ [90, 100]).count 100 = 1
      have hle80 : ∀ x ∈ (List.range (chunksOf text).length).map
          (fun j => (0 + j + 1) * 80 / (chunksOf text).length), x ≤ 80 := by
        intro x hx
        obtain ⟨j, hj, rfl⟩ := List.mem_map.mp hx
        have hjn : j + 1 ≤ (chunksOf text).length := List.mem_range.mp hj
        have hmul : (0 + j + 1) * 80 ≤ (chunksOf text).length * 80 :=
          Nat.mul_le_mul_right 80 (by omega)
        calc (0 + j + 1) * 80 / (chunksOf text).length
            ≤ (chunksOf text).length * 80 / (chunksOf text).length :=
              Nat.div_le_div_right hmul
          _ = 80 := Nat.mul_div_cancel_left 80 hn
      refine ⟨?_, ?_, ?_⟩
      · refine List.pairwise_append.mpr ⟨?_, ?_, ?_⟩
        · exact List.Pairwise.map _
            (fun a b hab => Nat.div_le_div_right (Nat.mul_le_mul_right 80 (by omega)))
            (List.pairwise_lt_range (chunksOf text).length)
        · norm_num [List.sorted_cons]
        · intro x hx y hy
          have hx80 := hle80 x hx
          simp only [List.mem_cons, List.mem_singleton] at hy
          rcases hy with rfl | hy
          · omega
          · simp at hy
            omega
      · rw [show ([90, 100] : List Nat) = [90] ++ [100] from rfl,
          ← List.append_assoc, List.getLast?_concat]
      · rw [List.count_append]
        have h0 : ((List.range (chunksOf text).length).map
            (fun j => (0 + j + 1) * 80 / (chunksOf text).length)).count 100 = 0 := by
          apply List.count_eq_zero.mpr
          intro hmem
          have := hle80 _ hmem
          omega
        rw [h0]
        rfl

/-- Witness for C2: a two-character text takes the single-call path with
trace [20, 100]. -/
theorem progress_monotone_and_terminal_witness :
    List.Sorted (· ≤ ·)
      (analyze_contract_chunked_trace okOracle "General Agreement" "hi".data).1 ∧
    (analyze_contract_chunked_trace okOracle "General Agreement" "hi".data).1.getLast? =
      some 100 ∧
    (analyze_contract_chunked_trace okOracle "General Agreement" "hi".data).1.count 100 = 1 :=
  progress_monotone_and_terminal okOracle "General Agreement" "hi".data
    (ChunkedOutcome.single ⟨none, none, none, none⟩) rfl

/-- C7: in the chunked path, an exception raised by the per-chunk analysis
call for chunk k — with every earlier chunk succeeding — propagates out of
`analyze_contract_chunked` and aborts the whole job: the run returns that
error and the clauses and definitions already collected from chunks before
k are discarded (no playbook is returned). -/
theorem chunk_exception_aborts {ε : Type}
    (analyze : Nat → List Char → Except ε ChunkResult) (agreement_type : String)
    (text : List Char) (k : Nat) (e : ε)
    (hlen : chunk_size ≤ text.length)
    (hk : k < (chunksOf text).length)
    (herr : analyze k ((chunksOf text).getD k []) = Except.error e)
    (hok : ∀ j, j < k → ∃ r, analyze j ((chunksOf text).getD j []) = Except.ok r) :
    analyze_contract_chunked analyze agreement_type text = Except.error e := by
  unfold analyze_contract_chunked analyze_contract_chunked_trace
  rw [if_neg (by omega)]
  have herr2 := chunkLoopTrace_error analyze (chunksOf text).length e
    (chunksOf text) 0 k hk (by simpa using herr) (by simpa using hok)
  rcases hrec : chunkLoopTrace analyze (chunksOf text).length 0 (chunksOf text)
    with ⟨ps, res⟩
  rw [hrec] at herr2
  simp only at herr2
  subst herr2
  rfl

/-- Witness for C7: a 30000-character text yields two chunks; the analysis
call fails on the second and the whole chunked job returns the error. -/
theorem chunk_exception_aborts_witness :
    analyze_contract_chunked failSecondOracle "General Agreement"
      (List.replicate 30000 'a') = Except.error () := by
  apply chunk_exception_aborts failSecondOracle "General Agreement" _ 1 ()
  · rw [List.length_replicate]
    decide
  · rw [chunksOf_length, List.length_replicate]
    decide
  · rfl
  · intro j hj
    refine ⟨⟨none, none, none, none⟩, ?_⟩
    have hj0 : j = 0 := by omega
    subst hj0
    rfl

/-- C8: if no chunk contributes clauses, definitions, or a non-empty
summary object, the combined playbook is still fully populated: the clause
and definition lists and all five quick-reference lists are present but
empty, and the agreement summary is the fixed placeholder object (with
zero critical issues). -/
theorem empty_chunks_wellformed (agreement_type : String)
    (results : List ChunkResult)
    (h : ∀ r ∈ results, r.clauses.getD [] = [] ∧ r.definitions.getD [] = [] ∧
      truthySummary r.agreement_summary = false) :
    (combineResults agreement_type results).clauses = [] ∧
    (combineResults agreement_type results).definitions = [] ∧
    (combineResults agreement_type results).quick_reference.deal_breakers = [] ∧
    (combineResults agreement_type results).quick_reference.high_priority_items = [] ∧
    (combineResults agreement_type results).quick_reference.standard_acceptable_terms = [] ∧
    (combineResults agreement_type results).quick_reference.common_negotiation_points = [] ∧
    (combineResults agreement_type results).quick_reference.recommended_order_of_negotiation = [] ∧
    (combineResults agreement_type results).agreement_summary =
      defaultSummary agreement_type 0 := by
  have hcl : collectClauses results = [] := by
    rw [collectClauses_eq_flatten]
    apply List.flatten_eq_nil_iff.mpr
    intro x hx
    obtain ⟨r, hr, rfl⟩ := List.mem_map.mp hx
    exact (h r hr).1
  have hdf : collectDefs results = [] := by
    rw [collectDefs_eq_flatten]
    apply List.flatten_eq_nil_iff.mpr
    intro x hx
    obtain ⟨r, hr, rfl⟩ := List.mem_map.mp hx
    exact (h r hr).2.1
  have hsum : truthySummary (results.foldl stepSummary none) = false :=
    foldl_stepSummary_falsy results none rfl (fun r hr => (h r hr).2.2)
  refine ⟨hcl, ?_, ?_, ?_, ?_, ?_, ?_, ?_⟩
  · show unique_definitions (collectDefs results) = []
    rw [hdf]
    rfl
  · show (bucketsTriple (collectClauses results)).1.take 15 = []
    rw [hcl]
    rfl
  · show (bucketsTriple (collectClauses results)).2.1.take 15 = []
    rw [hcl]
    rfl
  · show (bucketsTriple (collectClauses results)).2.2.take 15 = []
    rw [hcl]
    rfl
  · show common_negotiation_points (collectClauses results) = []
    rw [hcl]
    rfl
  · show recommended_order_of_negotiation (collectClauses results) = []
    rw [hcl]
    rfl
  · show pythonOr (results.foldl stepSummary none)
        (defaultSummary agreement_type (bucketsTriple (collectClauses results)).1.length) =
      defaultSummary agreement_type 0
    rw [pythonOr_falsy _ _ hsum, hcl]
    rfl

/-- Witness for C8 on two concrete contribution-free chunk results. -/
theorem empty_chunks_wellformed_witness :
    (combineResults "General Agreement" emptyChunksExample).clauses = [] ∧
    (combineResults "General Agreement" emptyChunksExample).definitions = [] ∧
    (combineResults "General Agreement" emptyChunksExample).quick_reference.deal_breakers = [] ∧
    (combineResults "General Agreement" emptyChunksExample).quick_reference.high_priority_items = [] ∧
    (combineResults "General Agreement" emptyChunksExample).quick_reference.standard_acceptable_terms = [] ∧
    (combineResults "General Agreement" emptyChunksExample).quick_reference.common_negotiation_points = [] ∧
    (combineResults "General Agreement" emptyChunksExample).quick_reference.recommended_order_of_negotiation = [] ∧
    (combineResults "General Agreement" emptyChunksExample).agreement_summary =
      defaultSummary "General Agreement" 0 :=
  empty_chunks_wellformed "General Agreement" emptyChunksExample (by decide)
